import Mathlib

/-!
Verification of the DNS single-page-app core (`src/App.svelte`): the CAA
generic-record decoder `parseCAA` and the lookup orchestrator `handleLookup`
(called `performLookup` in the specification).  JavaScript strings are
embedded as `List Char`; every fallible JavaScript step (a regex `match`
returning `null`, `parseInt` returning `NaN`, a thrown `TypeError`) is
embedded as an `Option`.
-/

/-- JavaScript's `\s` character class (the whitespace set used by `trim`,
the CAA regex and `replace(/\s+/g,'')`). -/
def isJsWs (c : Char) : Bool :=
  let n := c.toNat
  n = 9 || n = 10 || n = 11 || n = 12 || n = 13 || n = 32 || n = 160 ||
  n = 0x1680 || (0x2000 ≤ n && n ≤ 0x200A) || n = 0x2028 || n = 0x2029 ||
  n = 0x202F || n = 0x205F || n = 0x3000 || n = 0xFEFF

/-- Regex class `\d`. -/
def isDigitChar (c : Char) : Bool :=
  48 ≤ c.toNat && c.toNat ≤ 57

/-- Regex class `[\da-fA-F]` (one hex digit). -/
def isHexDigitChar (c : Char) : Bool :=
  (48 ≤ c.toNat && c.toNat ≤ 57) || (97 ≤ c.toNat && c.toNat ≤ 102) ||
  (65 ≤ c.toNat && c.toNat ≤ 70)

/-- Regex class `[\da-fA-F\s]` (the capture group of the CAA regex). -/
def isHexWsChar (c : Char) : Bool :=
  isHexDigitChar c || isJsWs c

/-- Numeric value of one hex digit, as `parseInt(·, 16)` assigns it. -/
def hexVal (c : Char) : Nat :=
  if 48 ≤ c.toNat && c.toNat ≤ 57 then c.toNat - 48
  else if 97 ≤ c.toNat && c.toNat ≤ 102 then c.toNat - 87
  else if 65 ≤ c.toNat && c.toNat ≤ 70 then c.toNat - 55
  else 0

/-- Model of `parseInt(s, 16)` for the strings this program feeds it (substrings of a
whitespace-stripped hex blob, hence hex digits only): `none` models `NaN`
(empty string), otherwise the base-16 value. -/
def jsParseIntHex (l : List Char) : Option Nat :=
  if l.isEmpty then none
  else some (l.foldl (fun a c => 16 * a + hexVal c) 0)

/-- One step of `hexStr.match(/.{2}/g).map(b => String.fromCharCode(parseInt(b,16)))`:
split into 2-character chunks (a trailing odd character is dropped by the
regex) and decode each chunk as a byte. -/
def decodePairsAux : List Char → List Char
  | c1 :: c2 :: rest => Char.ofNat (16 * hexVal c1 + hexVal c2) :: decodePairsAux rest
  | _ => []

/-- Model of `hexStr.match(/.{2}/g)` followed by the byte-decoding `map`/`join`.
`String.match` with the `g` flag returns `null` when there is no match,
i.e. when the string has fewer than 2 characters, and `null.map` throws:
`none` models that thrown `TypeError`.  (The inputs this program supplies
are pure hex digits, so `.` always matches and chunking is contiguous.) -/
def jsDecodeHexPairs (l : List Char) : Option (List Char) :=
  if l.length ≤ 1 then none else some (decodePairsAux l)

/-- The backtracking tail of `/\\#\s+\d+\s+([\da-fA-F\s]+)/`: when the
character after the maximal whitespace run is not in the capture class, the
greedy `\s+` gives back its final character (if it keeps at least one) and
the capture is exactly that whitespace character. -/
def caaBacktrackCapture (ws2 : List Char) : Option (List Char) :=
  if 2 ≤ ws2.length then ws2.getLast?.map (fun w => [w]) else none

/-- Attempt to match `/\\#\s+\d+\s+([\da-fA-F\s]+)/` at the head of the
string, returning the capture group.  All quantifiers are greedy; the only
backtracking the pattern can perform is between the second `\s+` and the
capture class (which contains `\s`), handled by `caaBacktrackCapture`. -/
def matchCAAAt : List Char → Option (List Char)
  | '\\' :: '#' :: rest =>
    let ws1 := rest.takeWhile isJsWs
    let r1 := rest.dropWhile isJsWs
    if ws1.isEmpty then none
    else
      let ds := r1.takeWhile isDigitChar
      let r2 := r1.dropWhile isDigitChar
      if ds.isEmpty then none
      else
        let ws2 := r2.takeWhile isJsWs
        let r3 := r2.dropWhile isJsWs
        if ws2.isEmpty then none
        else
          match r3 with
          | [] => caaBacktrackCapture ws2
          | c :: _ =>
            if isHexDigitChar c then some (r3.takeWhile isHexWsChar)
            else caaBacktrackCapture ws2
  | _ => none

/-- Model of `hexData.match(/\\#\s+\d+\s+([\da-fA-F\s]+)/)`: the regex is not
anchored, so the engine tries every start position left to right; the
result is the capture group of the leftmost match. -/
def caaSearch : List Char → Option (List Char)
  | [] => none
  | c :: cs =>
    match matchCAAAt (c :: cs) with
    | some cap => some cap
    | none => caaSearch cs

/-- The body of `parseCAA` from `src/App.svelte` on character lists.
Any `none` produced inside the `try` block models the thrown `TypeError`
that the `catch` turns into `return hexData`. -/
def parseCAAList (s : List Char) : List Char :=
  match caaSearch s with
  | none => s
  | some cap =>
    let hexBytes := cap.filter (fun c => !isJsWs c)
    match jsParseIntHex (hexBytes.take 2), jsParseIntHex ((hexBytes.drop 2).take 2) with
    | some flags, some tagLength =>
      match jsDecodeHexPairs ((hexBytes.drop 4).take (2 * tagLength)),
            jsDecodeHexPairs (hexBytes.drop (4 + 2 * tagLength)) with
      | some tag, some value =>
        (Nat.repr flags).data ++ [' '] ++ tag ++ [' ', '"'] ++ value ++ ['"']
      | _, _ => s
    | _, _ => s

/-- The decoder `parseCAA(hexData)` on `String`. -/
def parseCAA (s : String) : String :=
  ⟨parseCAAList s.data⟩

/-! ## Lookup orchestrator (`handleLookup`) -/

/-- One DNS answer record as delivered in the provider's `Answer` JSON array. -/
structure ResourceRecord where
  name : String
  type : Nat
  TTL : Nat
  data : String
deriving DecidableEq, Repr

/-- The JSON body `queryDNS` resolves to: an object with an optional
`Answer` array (`none` models an absent/undefined `Answer` property). -/
structure DNSResponse where
  Answer : Option (List ResourceRecord)
deriving DecidableEq, Repr

/-- The DoH transport: given the provider endpoint URL, the `name` and the
`type` query parameters, either a parsed JSON body or `none`, which models
any `queryDNS` throw (network failure, `!response.ok`, malformed JSON). -/
def DNSNet : Type :=
  String → String → String → Option DNSResponse

/-- Model of `queryDNS(recordDomain, recordType, providerUrl)`.  When `providerUrl`
is `undefined` (unknown provider), `new URL(undefined)` throws before any
request is made, so the outcome is a failure regardless of the network. -/
def queryDNS (net : DNSNet) (recordDomain recordType : String) :
    Option String → Option DNSResponse
  | none => none
  | some url => net url recordDomain recordType

/-- The list `RECORD_TYPES.usual`. -/
def usualTypes : List String :=
  ["SOA", "A", "AAAA", "TXT", "MX", "NS", "CAA"]

/-- One entry of `RECORD_TYPES.emailSecurity`. -/
structure EmailProbe where
  type : String
  name : String
  label : String
deriving DecidableEq, Repr

/-- The list `RECORD_TYPES.emailSecurity`. -/
def emailSecurityProbes : List EmailProbe :=
  [⟨"TXT", "_dmarc", "_dmarc (TXT)"⟩,
   ⟨"A", "mta-sts", "mta-sts (A)"⟩,
   ⟨"AAAA", "mta-sts", "mta-sts (AAAA)"⟩,
   ⟨"TXT", "_mta-sts", "_mta-sts (TXT)"⟩,
   ⟨"TXT", "_smtp._tls", "_smtp._tls (TXT)"⟩,
   ⟨"TXT", "google._domainkey", "google._domainkey (TXT)"⟩]

/-- The `PROVIDERS` object: property access returns `undefined` (`none`)
for any id other than the two fixed entries. -/
def PROVIDERS (p : String) : Option String :=
  if p = "google" then some "https://dns.google/resolve"
  else if p = "cloudflare" then some "https://cloudflare-dns.com/dns-query"
  else none

/-- JavaScript object mapping lookup (`obj[key]` / `obj.key`) for the
insertion-ordered result objects, embedded as association lists. -/
def alookup {α : Type} (k : String) : List (String × α) → Option α
  | [] => none
  | (k2, v) :: rest => if k2 = k then some v else alookup k rest

/-- One iteration of the standard-record loop body: the per-query `try`
(`none` = caught failure), the `result.Answer && result.Answer.length > 0`
guard, and the Cloudflare CAA rewrite `data: parseCAA(record.data)`. -/
def processUsualType (net : DNSNet) (url : Option String)
    (cleanDomain provider ty : String) : Option (List ResourceRecord) :=
  match queryDNS net cleanDomain ty url with
  | none => none
  | some result =>
    match result.Answer with
    | some ans =>
      if 0 < ans.length then
        some (if ty = "CAA" && provider = "cloudflare"
              then ans.map (fun r => { r with data := parseCAA r.data })
              else ans)
      else none
    | none => none

/-- The `for (const type of RECORD_TYPES.usual)` loop: first component is
the `usualResults` object in insertion order, second the `(name, type)`
pairs handed to `queryDNS`, in issue order. -/
def usualPass (net : DNSNet) (url : Option String) (cleanDomain provider : String) :
    List String → List (String × List ResourceRecord) × List (String × String)
  | [] => ([], [])
  | ty :: rest =>
    let tail := usualPass net url cleanDomain provider rest
    match processUsualType net url cleanDomain provider ty with
    | some ans => ((ty, ans) :: tail.1, (cleanDomain, ty) :: tail.2)
    | none => (tail.1, (cleanDomain, ty) :: tail.2)

/-- One iteration of the email-security loop body: query
`` `${record.name}.${cleanDomain}` `` for `record.type`, keep a non-empty
`Answer`, swallow failures. -/
def processProbe (net : DNSNet) (url : Option String) (cleanDomain : String)
    (probe : EmailProbe) : Option (List ResourceRecord) :=
  match queryDNS net (probe.name ++ "." ++ cleanDomain) probe.type url with
  | none => none
  | some result =>
    match result.Answer with
    | some ans => if 0 < ans.length then some ans else none
    | none => none

/-- The `for (const record of RECORD_TYPES.emailSecurity)` loop, keyed by
`record.label`, with its query log. -/
def emailPass (net : DNSNet) (url : Option String) (cleanDomain : String) :
    List EmailProbe → List (String × List ResourceRecord) × List (String × String)
  | [] => ([], [])
  | probe :: rest =>
    let tail := emailPass net url cleanDomain rest
    match processProbe net url cleanDomain probe with
    | some ans => ((probe.label, ans) :: tail.1,
                   (probe.name ++ "." ++ cleanDomain, probe.type) :: tail.2)
    | none => (tail.1, (probe.name ++ "." ++ cleanDomain, probe.type) :: tail.2)

/-- Model of `c.toLowerCase()`, exact on ASCII characters only.  Real
JavaScript applies the full Unicode case mapping (e.g. U+212A KELVIN SIGN
lowercases to `k`), which a per-character ASCII map does not express;
theorems whose truth depends on case mapping therefore quantify over
ASCII strings, where this map agrees with the source. -/
def jsLowerChar (c : Char) : Char :=
  if 65 ≤ c.toNat && c.toNat ≤ 90 then Char.ofNat (c.toNat + 32) else c

/-- Model of `c.toUpperCase()`, exact on ASCII characters only.  Real
JavaScript applies the full Unicode case mapping (e.g. `'ß'` uppercases to
the two-character `"SS"` and `'ı'` to `'I'`), which a per-character ASCII
map does not express; theorems whose truth depends on case mapping
therefore quantify over ASCII strings, where this map agrees with the
source. -/
def jsUpperChar (c : Char) : Char :=
  if 97 ≤ c.toNat && c.toNat ≤ 122 then Char.ofNat (c.toNat - 32) else c

/-- Model of `s.toLowerCase()` character-wise. -/
def jsToLowerList (l : List Char) : List Char :=
  l.map jsLowerChar

/-- Does `pat` occur at the head of the second list? -/
def startsWithChars : List Char → List Char → Bool
  | [], _ => true
  | _ :: _, [] => false
  | p :: ps, c :: cs => p == c && startsWithChars ps cs

/-- Model of `haystack.includes(pat)` (substring containment). -/
def containsSub (pat : List Char) : List Char → Bool
  | [] => startsWithChars pat []
  | c :: cs => startsWithChars pat (c :: cs) || containsSub pat cs

/-- The SPF filter of the TXT answer set:
`record.data && record.data.toLowerCase().includes('v=spf1')`. -/
def spfPred (r : ResourceRecord) : Bool :=
  !r.data.data.isEmpty && containsSub "v=spf1".data (jsToLowerList r.data.data)

/-- The `if (usualResults.TXT)` block: the synthetic `SPF (TXT)` entries
(one entry when the filter keeps at least one record, none otherwise). -/
def spfEntries (usual : List (String × List ResourceRecord)) :
    List (String × List ResourceRecord) :=
  match alookup "TXT" usual with
  | some txt =>
    let m := txt.filter spfPred
    if 0 < m.length then [("SPF (TXT)", m)] else []
  | none => []

/-- Model of `trimStart`: drop leading JS whitespace. -/
def trimStartList (l : List Char) : List Char :=
  l.dropWhile isJsWs

/-- Model of `trimEnd`: drop trailing JS whitespace. -/
def trimEndList (l : List Char) : List Char :=
  (l.reverse.dropWhile isJsWs).reverse

/-- Model of `s.trim()`. -/
def jsTrimList (l : List Char) : List Char :=
  trimEndList (trimStartList l)

/-- Model of `s.trim()` on `String`. -/
def jsTrim (s : String) : String :=
  ⟨jsTrimList s.data⟩

/-- Model of `s.toUpperCase()` on `String` (exact on ASCII strings only;
see `jsUpperChar`). -/
def jsToUpper (s : String) : String :=
  ⟨s.data.map jsUpperChar⟩

/-- Model of `replace(/^https?:\/\//, '')`: the case-sensitive scheme strip (applied
after lowercasing). -/
def stripScheme (l : List Char) : List Char :=
  if startsWithChars "https://".data l then l.drop 8
  else if startsWithChars "http://".data l then l.drop 7
  else l

/-- Model of `replace(/\/$/, '')`: drop one trailing slash. -/
def stripTrailingSlash (l : List Char) : List Char :=
  if l.getLast? = some '/' then l.dropLast else l

/-- The chain `domain.trim().toLowerCase().replace(/^https?:\/\//, '').replace(/\/$/, '')`. -/
def cleanList (l : List Char) : List Char :=
  stripTrailingSlash (stripScheme (jsToLowerList (jsTrimList l)))

/-- The `cleanDomain` normalization on `String`. -/
def cleanDomain (d : String) : String :=
  ⟨cleanList d.data⟩

/-- The field `results.provider`: `provider === 'google' ? 'dns.google' : '1.1.1.1'`. -/
def providerLabel (p : String) : String :=
  if p = "google" then "dns.google" else "1.1.1.1"

/-- The `results` object assembled at the end of `handleLookup`. -/
structure LookupResult where
  domain : String
  provider : String
  usual : List (String × List ResourceRecord)
  emailSecurity : List (String × List ResourceRecord)
deriving DecidableEq, Repr

/-- What `handleLookup` communicates to its caller: the early-return
validation error (`'Please enter a domain name'`), or a completed result. -/
inductive LookupOutcome
  | validationError
  | success (result : LookupResult)
deriving DecidableEq, Repr

/-- The body of `handleLookup` after validation, on the already-cleaned
domain: both query loops, the SPF synthesis between them, and the final
`results` object, paired with the complete `(name, type)` query log. -/
def doLookup (net : DNSNet) (cd p : String) :
    LookupResult × List (String × String) :=
  let url := PROVIDERS p
  let u := usualPass net url cd p usualTypes
  let e := emailPass net url cd emailSecurityProbes
  (⟨cd, providerLabel p, u.1, spfEntries u.1 ++ e.1⟩, u.2 ++ e.2)

/-- Model of `handleLookup`, i.e. the spec's `performLookup(domain, provider)`:
validation guard `if (!domain.trim())`, then normalization and the full
query battery.  The second component is the list of queries issued. -/
def performLookup (net : DNSNet) (domain p : String) :
    LookupOutcome × List (String × String) :=
  if jsTrim domain = "" then (.validationError, [])
  else
    let r := doLookup net (cleanDomain domain) p
    (.success r.1, r.2)

/-! ## Rendering generic-record inputs and decoding facts -/

/-- One lowercase hex digit character. -/
def hexDigit (n : Nat) : Char :=
  if n < 10 then Char.ofNat (48 + n) else Char.ofNat (87 + n)

/-- Two-digit hex rendering of one byte. -/
def hexByte (b : Nat) : List Char :=
  [hexDigit (b / 16), hexDigit (b % 16)]

/-- Contiguous hex rendering of a byte list. -/
def hexEnc : List Nat → List Char
  | [] => []
  | b :: rest => hexByte b ++ hexEnc rest

/-- Space-separated hex rendering of a byte list (the wire-byte field of a
generic record as the resolver prints it). -/
def hexWords : List Nat → List Char
  | [] => []
  | b :: rest =>
    hexByte b ++ (match rest with
                  | [] => []
                  | _ :: _ => ' ' :: hexWords rest)

/-- A well-formed generic-record presentation `\# <len> <hex bytes>`:
`lenStr` is the decimal byte-count field (the decoder never checks it
against the data, only that it is a digit run). -/
def renderGeneric (lenStr : List Char) (bs : List Nat) : List Char :=
  '\\' :: '#' :: ' ' :: (lenStr ++ ' ' :: hexWords bs)

set_option maxRecDepth 4096 in
theorem hexByte_chars : ∀ b, b < 256 →
    ((hexByte b).all fun c => isHexDigitChar c && !isJsWs c) = true := by
  decide

set_option maxRecDepth 4096 in
theorem jsParseIntHex_hexByte : ∀ b, b < 256 →
    jsParseIntHex (hexByte b) = some b := by
  decide

set_option maxRecDepth 4096 in
theorem hexVal_hexByte : ∀ b, b < 256 →
    16 * hexVal (hexDigit (b / 16)) + hexVal (hexDigit (b % 16)) = b := by
  decide

theorem digit_not_ws (c : Char) (h : isDigitChar c = true) : isJsWs c = false := by
  simp only [isDigitChar, Bool.and_eq_true, decide_eq_true_eq] at h
  simp only [isJsWs, Bool.or_eq_false_iff, Bool.and_eq_false_iff, decide_eq_false_iff_not]
  omega

theorem hexByte_length (b : Nat) : (hexByte b).length = 2 := rfl

theorem hexEnc_cons (b : Nat) (rest : List Nat) :
    hexEnc (b :: rest) = hexByte b ++ hexEnc rest := rfl

theorem hexEnc_append (a b : List Nat) : hexEnc (a ++ b) = hexEnc a ++ hexEnc b := by
  induction a with
  | nil => rfl
  | cons x xs ih => simp [hexEnc_cons, ih]

theorem hexEnc_length (bs : List Nat) : (hexEnc bs).length = 2 * bs.length := by
  induction bs with
  | nil => rfl
  | cons b rest ih => simp [hexEnc_cons, ih, hexByte_length]; omega

theorem hexWords_one (b : Nat) : hexWords [b] = hexByte b := by
  simp [hexWords]

theorem hexWords_cons₂ (b r : Nat) (rs : List Nat) :
    hexWords (b :: r :: rs) = hexByte b ++ ' ' :: hexWords (r :: rs) := rfl

theorem decodePairsAux_hexEnc (bs : List Nat) (hb : ∀ b ∈ bs, b < 256) :
    decodePairsAux (hexEnc bs) = bs.map Char.ofNat := by
  induction bs with
  | nil => rfl
  | cons b rest ih =>
    have hb0 : b < 256 := hb b (List.mem_cons_self b rest)
    have : decodePairsAux (hexEnc (b :: rest)) =
        Char.ofNat (16 * hexVal (hexDigit (b / 16)) + hexVal (hexDigit (b % 16))) ::
          decodePairsAux (hexEnc rest) := rfl
    rw [this, hexVal_hexByte b hb0, ih (fun x hx => hb x (List.mem_cons_of_mem _ hx))]
    rfl

theorem hexWords_chars (bs : List Nat) (hb : ∀ b ∈ bs, b < 256) :
    ∀ c ∈ hexWords bs, isHexWsChar c = true := by
  induction bs with
  | nil => intro c hc; cases hc
  | cons b rest ih =>
    intro c hc
    have hb0 : b < 256 := hb b (List.mem_cons_self b rest)
    have hby := hexByte_chars b hb0
    simp only [List.all_eq_true, Bool.and_eq_true] at hby
    cases rest with
    | nil =>
      rw [hexWords_one] at hc
      have := (hby c hc).1
      simp [isHexWsChar, this]
    | cons r rs =>
      rw [hexWords_cons₂] at hc
      rcases List.mem_append.1 hc with h1 | h2
      · have := (hby c h1).1
        simp [isHexWsChar, this]
      · rcases List.mem_cons.1 h2 with h3 | h4
        · subst h3; simp [isHexWsChar, isJsWs]
        · exact ih (fun x hx => hb x (List.mem_cons_of_mem _ hx)) c h4

theorem hexWords_filter (bs : List Nat) (hb : ∀ b ∈ bs, b < 256) :
    (hexWords bs).filter (fun c => !isJsWs c) = hexEnc bs := by
  induction bs with
  | nil => rfl
  | cons b rest ih =>
    have hb0 : b < 256 := hb b (List.mem_cons_self b rest)
    have hby := hexByte_chars b hb0
    simp only [List.all_eq_true, Bool.and_eq_true] at hby
    have hfb : (hexByte b).filter (fun c => !isJsWs c) = hexByte b := by
      apply List.filter_eq_self.2
      intro c hc
      simp [(hby c hc).2]
    cases rest with
    | nil => rw [hexWords_one, hfb]; simp [hexEnc_cons, hexEnc]
    | cons r rs =>
      rw [hexWords_cons₂, List.filter_append, hfb, hexEnc_cons]
      congr 1
      have hsp : (' ' :: hexWords (r :: rs)).filter (fun c => !isJsWs c) =
          (hexWords (r :: rs)).filter (fun c => !isJsWs c) := by
        simp [List.filter_cons, isJsWs]
      rw [hsp, ih (fun x hx => hb x (List.mem_cons_of_mem _ hx))]

theorem isJsWs_space : isJsWs ' ' = true := by decide

theorem isDigitChar_space : isDigitChar ' ' = false := by decide

theorem matchCAAAt_render (lenStr : List Char) (bs : List Nat)
    (hlen : lenStr ≠ []) (hld : ∀ c ∈ lenStr, isDigitChar c = true)
    (hbs : bs ≠ []) (hbv : ∀ b ∈ bs, b < 256) :
    matchCAAAt (renderGeneric lenStr bs) = some (hexWords bs) := by
  obtain ⟨b, rest, rfl⟩ : ∃ b rest, bs = b :: rest := by
    cases bs with
    | nil => exact absurd rfl hbs
    | cons b r => exact ⟨b, r, rfl⟩
  obtain ⟨c0, ls, rfl⟩ : ∃ c0 ls, lenStr = c0 :: ls := by
    cases lenStr with
    | nil => exact absurd rfl hlen
    | cons c0 ls => exact ⟨c0, ls, rfl⟩
  have hb0 : b < 256 := hbv b (List.mem_cons_self _ _)
  have hby := hexByte_chars b hb0
  simp only [List.all_eq_true, Bool.and_eq_true] at hby
  obtain ⟨tl, htl⟩ : ∃ tl,
      hexWords (b :: rest) = hexDigit (b / 16) :: hexDigit (b % 16) :: tl := by
    cases rest with
    | nil => exact ⟨[], by rw [hexWords_one]; rfl⟩
    | cons r rs => exact ⟨' ' :: hexWords (r :: rs), rfl⟩
  have hd1mem : hexDigit (b / 16) ∈ hexByte b := List.mem_cons_self _ _
  have hd1hex : isHexDigitChar (hexDigit (b / 16)) = true := (hby _ hd1mem).1
  have hd1ws : isJsWs (hexDigit (b / 16)) = false := by
    simpa using (hby _ hd1mem).2
  have hc0ws : isJsWs c0 = false := digit_not_ws c0 (hld c0 (List.mem_cons_self _ _))
  have hall : ∀ c ∈ hexWords (b :: rest), isHexWsChar c = true := hexWords_chars _ hbv
  rw [renderGeneric, htl] at *
  have h1 : List.takeWhile isJsWs
      (' ' :: ((c0 :: ls) ++ ' ' :: (hexDigit (b / 16) :: hexDigit (b % 16) :: tl))) = [' '] := by
    simp [List.takeWhile_cons, isJsWs_space, hc0ws]
  have h2 : List.dropWhile isJsWs
      (' ' :: ((c0 :: ls) ++ ' ' :: (hexDigit (b / 16) :: hexDigit (b % 16) :: tl))) =
      (c0 :: ls) ++ ' ' :: (hexDigit (b / 16) :: hexDigit (b % 16) :: tl) := by
    simp [List.dropWhile_cons, isJsWs_space, hc0ws]
  have h3 : List.takeWhile isDigitChar
      ((c0 :: ls) ++ ' ' :: (hexDigit (b / 16) :: hexDigit (b % 16) :: tl)) = c0 :: ls := by
    rw [List.takeWhile_append_of_pos hld]
    simp [List.takeWhile_cons, isDigitChar_space]
  have h4 : List.dropWhile isDigitChar
      ((c0 :: ls) ++ ' ' :: (hexDigit (b / 16) :: hexDigit (b % 16) :: tl)) =
      ' ' :: (hexDigit (b / 16) :: hexDigit (b % 16) :: tl) := by
    rw [List.dropWhile_append_of_pos hld]
    simp [List.dropWhile_cons, isDigitChar_space]
  have h5 : List.takeWhile isJsWs
      (' ' :: (hexDigit (b / 16) :: hexDigit (b % 16) :: tl)) = [' '] := by
    simp [List.takeWhile_cons, isJsWs_space, hd1ws]
  have h6 : List.dropWhile isJsWs
      (' ' :: (hexDigit (b / 16) :: hexDigit (b % 16) :: tl)) =
      hexDigit (b / 16) :: hexDigit (b % 16) :: tl := by
    simp [List.dropWhile_cons, isJsWs_space, hd1ws]
  have h7 : List.takeWhile isHexWsChar
      (hexDigit (b / 16) :: hexDigit (b % 16) :: tl) =
      hexDigit (b / 16) :: hexDigit (b % 16) :: tl := by
    rw [← htl]
    exact List.takeWhile_eq_self_iff.2 hall
  simp only [matchCAAAt, h1, h2, h3, h4, h5, h6, h7, hd1hex, List.isEmpty_cons,
    if_true, if_false, Bool.false_eq_true, ite_false, ite_true]

theorem caaSearch_render (lenStr : List Char) (bs : List Nat)
    (hlen : lenStr ≠ []) (hld : ∀ c ∈ lenStr, isDigitChar c = true)
    (hbs : bs ≠ []) (hbv : ∀ b ∈ bs, b < 256) :
    caaSearch (renderGeneric lenStr bs) = some (hexWords bs) := by
  have h := matchCAAAt_render lenStr bs hlen hld hbs hbv
  rw [renderGeneric] at h ⊢
  simp [caaSearch, h]

/-- Claim C1 (amended): a `\# <len> <hex>` generic record whose tag segment is
non-empty (`tagLength ≥ 1`, fully present) and whose value segment has at
least one byte decodes to `<flags> <tag> "<value>"`, flags in decimal and
tag/value decoded byte-wise. -/
theorem parseCAA_wellformed (lenStr : List Char) (f t : Nat) (tagB valB : List Nat)
    (hlen : lenStr ≠ []) (hld : ∀ c ∈ lenStr, isDigitChar c = true)
    (hf : f < 256) (ht : t < 256) (htl : tagB.length = t) (ht1 : tagB ≠ [])
    (hv1 : valB ≠ []) (htb : ∀ b ∈ tagB, b < 256) (hvb : ∀ b ∈ valB, b < 256) :
    parseCAAList (renderGeneric lenStr (f :: t :: (tagB ++ valB))) =
      (Nat.repr f).data ++ [' '] ++ tagB.map Char.ofNat ++ [' ', '"'] ++
        valB.map Char.ofNat ++ ['"'] := by
  have hbv : ∀ b ∈ f :: t :: (tagB ++ valB), b < 256 := by
    intro x hx
    rcases List.mem_cons.1 hx with rfl | hx; · exact hf
    rcases List.mem_cons.1 hx with rfl | hx; · exact ht
    rcases List.mem_append.1 hx with h | h
    · exact htb x h
    · exact hvb x h
  have hsearch := caaSearch_render lenStr (f :: t :: (tagB ++ valB)) hlen hld
    (by simp) hbv
  have hfilter := hexWords_filter (f :: t :: (tagB ++ valB)) hbv
  have hsplit : hexEnc (f :: t :: (tagB ++ valB)) =
      hexByte f ++ (hexByte t ++ (hexEnc tagB ++ hexEnc valB)) := by
    rw [hexEnc_cons, hexEnc_cons, hexEnc_append]
  have htake2 : (hexEnc (f :: t :: (tagB ++ valB))).take 2 = hexByte f := by
    rw [hsplit]; exact List.take_left' (hexByte_length f)
  have hdrop2 : (hexEnc (f :: t :: (tagB ++ valB))).drop 2 =
      hexByte t ++ (hexEnc tagB ++ hexEnc valB) := by
    rw [hsplit]; exact List.drop_left' (hexByte_length f)
  have hdrop4 : (hexEnc (f :: t :: (tagB ++ valB))).drop 4 = hexEnc tagB ++ hexEnc valB := by
    have : (4 : Nat) = 2 + 2 := rfl
    rw [this, ← List.drop_drop, hdrop2]
    exact List.drop_left' (hexByte_length t)
  have htagtake : (hexEnc tagB ++ hexEnc valB).take (2 * t) = hexEnc tagB :=
    List.take_left' (by rw [hexEnc_length, htl])
  have htagdrop : (hexEnc tagB ++ hexEnc valB).drop (2 * t) = hexEnc valB :=
    List.drop_left' (by rw [hexEnc_length, htl])
  have hvaldrop : (hexEnc (f :: t :: (tagB ++ valB))).drop (4 + 2 * t) = hexEnc valB := by
    rw [← List.drop_drop, hdrop4, htagdrop]
  have ht0 : 0 < t := by
    rcases tagB with _ | ⟨x, xs⟩
    · exact absurd rfl ht1
    · simp at htl; omega
  have hv0 : 0 < valB.length := List.length_pos.2 hv1
  have htagdec : jsDecodeHexPairs (hexEnc tagB) = some (tagB.map Char.ofNat) := by
    rw [jsDecodeHexPairs, if_neg, decodePairsAux_hexEnc tagB htb]
    rw [hexEnc_length, htl]; omega
  have hvaldec : jsDecodeHexPairs (hexEnc valB) = some (valB.map Char.ofNat) := by
    rw [jsDecodeHexPairs, if_neg, decodePairsAux_hexEnc valB hvb]
    rw [hexEnc_length]; omega
  rw [parseCAAList]
  rw [hsearch]
  simp only [hfilter, htake2, hdrop2, hdrop4, htagtake, hvaldrop,
    jsParseIntHex_hexByte f hf, jsParseIntHex_hexByte t ht, htagdec, hvaldec]
  have h4t : (hexByte t ++ (hexEnc tagB ++ hexEnc valB)).take 2 = hexByte t :=
    List.take_left' (hexByte_length t)
  rw [h4t, jsParseIntHex_hexByte t ht]
  simp only [htagtake, hvaldrop, htagdec, hvaldec]

/-- Claim C3 (amended): on a generic record whose `tagLength` byte is `0`, or
whose value segment has zero bytes, `''.match(/.{2}/g)` is `null`, the
`.map` throws, and `parseCAA` returns the input unchanged instead of
producing an empty tag or a quoted empty value. -/
theorem parseCAA_zero_segment (lenStr : List Char) (f t : Nat) (rest : List Nat)
    (hlen : lenStr ≠ []) (hld : ∀ c ∈ lenStr, isDigitChar c = true)
    (hf : f < 256) (ht : t < 256) (hrb : ∀ b ∈ rest, b < 256)
    (hz : t = 0 ∨ rest.length ≤ t) :
    parseCAAList (renderGeneric lenStr (f :: t :: rest)) =
      renderGeneric lenStr (f :: t :: rest) := by
  have hbv : ∀ b ∈ f :: t :: rest, b < 256 := by
    intro x hx
    rcases List.mem_cons.1 hx with rfl | hx
    · exact hf
    rcases List.mem_cons.1 hx with rfl | hx
    · exact ht
    exact hrb x hx
  have hsearch := caaSearch_render lenStr (f :: t :: rest) hlen hld (by simp) hbv
  have hfilter := hexWords_filter (f :: t :: rest) hbv
  have hsplit : hexEnc (f :: t :: rest) = hexByte f ++ (hexByte t ++ hexEnc rest) := by
    rw [hexEnc_cons, hexEnc_cons]
  have htake2 : (hexEnc (f :: t :: rest)).take 2 = hexByte f := by
    rw [hsplit]; exact List.take_left' (hexByte_length f)
  have hdrop2 : (hexEnc (f :: t :: rest)).drop 2 = hexByte t ++ hexEnc rest := by
    rw [hsplit]; exact List.drop_left' (hexByte_length f)
  have htake2' : (hexByte t ++ hexEnc rest).take 2 = hexByte t :=
    List.take_left' (hexByte_length t)
  rw [parseCAAList, hsearch]
  simp only [hfilter, htake2, hdrop2, htake2',
    jsParseIntHex_hexByte f hf, jsParseIntHex_hexByte t ht]
  rcases hz with rfl | hle
  · have htag : jsDecodeHexPairs (((hexEnc (f :: 0 :: rest)).drop 4).take (2 * 0)) = none := by
      simp [jsDecodeHexPairs]
    rcases hval : jsDecodeHexPairs ((hexEnc (f :: 0 :: rest)).drop (4 + 2 * 0)) with _ | v
    · simp only [htag, hval]
    · simp only [htag, hval]
  · have hval : jsDecodeHexPairs ((hexEnc (f :: t :: rest)).drop (4 + 2 * t)) = none := by
      have hnil : (hexEnc (f :: t :: rest)).drop (4 + 2 * t) = [] := by
        apply List.drop_eq_nil_of_le
        rw [hexEnc_length]
        simp only [List.length_cons]
        omega
      rw [hnil]
      simp [jsDecodeHexPairs]
    rcases htag : jsDecodeHexPairs (((hexEnc (f :: t :: rest)).drop 4).take (2 * t)) with _ | v
    · simp only [htag, hval]
    · simp only [htag, hval]

/-- Witness for `C1`: the spec's example wire bytes
`00 05 69 73 73 75 65 74 65 73 74 63 61 2e 63 6f 6d`
(flags 0, tag `issue`, value `testca.com`). -/
theorem parseCAA_wellformed_witness :
    parseCAAList (renderGeneric ['1', '7']
      (0 :: 5 :: ([105, 115, 115, 117, 101] ++
        [116, 101, 115, 116, 99, 97, 46, 99, 111, 109]))) =
      (Nat.repr 0).data ++ [' '] ++
        [105, 115, 115, 117, 101].map Char.ofNat ++ [' ', '"'] ++
        [116, 101, 115, 116, 99, 97, 46, 99, 111, 109].map Char.ofNat ++ ['"'] :=
  parseCAA_wellformed ['1', '7'] 0 5 [105, 115, 115, 117, 101]
    [116, 101, 115, 116, 99, 97, 46, 99, 111, 109]
    (by decide) (by decide) (by decide) (by decide) (by decide) (by decide)
    (by decide) (by decide) (by decide)

/-- Counterexample for `C1` as stated: the well-formed generic record with
flags `0`, tag `issue` and an empty value segment is returned unchanged,
not decoded to `0 issue ""`. -/
theorem parseCAA_wellformed_counterexample :
    parseCAA "\\# 7 00 05 69 73 73 75 65" = "\\# 7 00 05 69 73 73 75 65" ∧
      parseCAA "\\# 7 00 05 69 73 73 75 65" ≠ "0 issue \"\"" := by
  constructor
  · decide
  · decide

/-- Claim C2 (amended): whenever the unanchored pattern
`/\\#\s+\d+\s+([\da-fA-F\s]+)/` finds no match anywhere in the input,
`parseCAA` returns the input unchanged.  (The spec's example input does
match, via its hex prefix — see the counterexample.) -/
theorem parseCAA_no_match_unchanged (l : List Char) (h : caaSearch l = none) :
    parseCAAList l = l := by
  rw [parseCAAList, h]

/-- Witness for `C2`: an already-decoded CAA field has no `\#` marker, so
the regex finds no match and the field passes through unchanged. -/
theorem parseCAA_no_match_unchanged_witness :
    caaSearch ("0 issue \"ca.com\"".data) = none ∧
      parseCAAList ("0 issue \"ca.com\"".data) = "0 issue \"ca.com\"".data :=
  ⟨by decide, parseCAA_no_match_unchanged _ (by decide)⟩

/-- Counterexample for `C2` as stated: the unanchored regex matches the
hex prefix of `\# 19 0005697373756574657374"ca.com"` (and the declared
length 19 is never checked), so the input is decoded to `0 issue "test"`
rather than returned unchanged. -/
theorem parseCAA_no_match_counterexample :
    parseCAA "\\# 19 0005697373756574657374\"ca.com\"" = "0 issue \"test\"" ∧
      parseCAA "\\# 19 0005697373756574657374\"ca.com\"" ≠
        "\\# 19 0005697373756574657374\"ca.com\"" := by
  constructor
  · decide
  · decide

/-- Witness for `C3`: flags `128`, `tagLength = 0`, one value byte `x`:
the decode aborts and the input is returned unchanged (the claimed output
`128  "x"` is not produced — see the counterexample). -/
theorem parseCAA_zero_segment_witness :
    parseCAAList (renderGeneric ['3'] [128, 0, 120]) =
      renderGeneric ['3'] [128, 0, 120] :=
  parseCAA_zero_segment ['3'] 128 0 [120]
    (by decide) (by decide) (by decide) (by decide) (by decide) (Or.inl rfl)

/-- Counterexample for `C3` as stated: on wire bytes `80 00 78`
(flags 128, empty tag, value `x`) the decoder returns the input unchanged,
not `128  "x"`. -/
theorem parseCAA_zero_segment_counterexample :
    parseCAA "\\# 3 80 00 78" = "\\# 3 80 00 78" ∧
      parseCAA "\\# 3 80 00 78" ≠ "128  \"x\"" := by
  constructor
  · decide
  · decide

/-- Claim C4: `parseCAA` is total and never lets a parse failure escape: every
input is either returned unchanged (all caught-error paths, and the
no-match path) or mapped to a successfully decoded
`<flags> <tag> "<value>"` string. -/
theorem parseCAA_total (s : List Char) :
    parseCAAList s = s ∨
      ∃ f tag value, parseCAAList s =
        (Nat.repr f).data ++ [' '] ++ tag ++ [' ', '"'] ++ value ++ ['"'] := by
  rw [parseCAAList]
  split
  · left; rfl
  · dsimp only
    split
    · split
      · right
        exact ⟨_, _, _, rfl⟩
      · left; rfl
    · left; rfl

/-! ## Orchestrator lemmas -/

theorem usualPass_fst (net : DNSNet) (url : Option String) (cd prov : String)
    (tys : List String) :
    (usualPass net url cd prov tys).1 =
      tys.filterMap (fun ty =>
        (processUsualType net url cd prov ty).map (fun ans => (ty, ans))) := by
  induction tys with
  | nil => rfl
  | cons ty rest ih =>
    rw [usualPass, List.filterMap_cons]
    rcases h : processUsualType net url cd prov ty with _ | ans
    · simpa [h] using ih
    · simpa [h] using ih

theorem usualPass_snd (net : DNSNet) (url : Option String) (cd prov : String)
    (tys : List String) :
    (usualPass net url cd prov tys).2 = tys.map (fun ty => (cd, ty)) := by
  induction tys with
  | nil => rfl
  | cons ty rest ih =>
    rw [usualPass, List.map_cons]
    rcases h : processUsualType net url cd prov ty with _ | ans
    · simpa [h] using ih
    · simpa [h] using ih

theorem emailPass_fst (net : DNSNet) (url : Option String) (cd : String)
    (ps : List EmailProbe) :
    (emailPass net url cd ps).1 =
      ps.filterMap (fun probe =>
        (processProbe net url cd probe).map (fun ans => (probe.label, ans))) := by
  induction ps with
  | nil => rfl
  | cons probe rest ih =>
    rw [emailPass, List.filterMap_cons]
    rcases h : processProbe net url cd probe with _ | ans
    · simpa [h] using ih
    · simpa [h] using ih

theorem emailPass_snd (net : DNSNet) (url : Option String) (cd : String)
    (ps : List EmailProbe) :
    (emailPass net url cd ps).2 =
      ps.map (fun probe => (probe.name ++ "." ++ cd, probe.type)) := by
  induction ps with
  | nil => rfl
  | cons probe rest ih =>
    rw [emailPass, List.map_cons]
    rcases h : processProbe net url cd probe with _ | ans
    · simpa [h] using ih
    · simpa [h] using ih

/-- Claim C8: an empty-after-trim domain short-circuits `handleLookup` before
the `try` block: the outcome is the validation error and the query log is
empty — no network request is issued, whatever the transport would do. -/
theorem performLookup_empty_domain (net : DNSNet) (d p : String)
    (hd : jsTrim d = "") :
    performLookup net d p = (.validationError, []) := by
  rw [performLookup, if_pos hd]

/-- Witness for `C8`: `performLookup("", p)` under an arbitrary concrete
transport. -/
theorem performLookup_empty_domain_witness :
    performLookup (fun _ _ _ => none) "" "google" = (.validationError, []) :=
  performLookup_empty_domain (fun _ _ _ => none) "" "google" (by decide)

theorem keyed_mem_key {α β : Type} (key : α → String) (g : α → Option β)
    (L : List α) (k : String) (v : β)
    (h : (k, v) ∈ L.filterMap (fun x => (g x).map (fun w => (key x, w)))) :
    k ∈ L.map key := by
  rcases List.mem_filterMap.1 h with ⟨x, hx, hgx⟩
  rcases Option.map_eq_some'.1 hgx with ⟨w, _, hkw⟩
  have : key x = k := congrArg Prod.fst hkw
  exact this ▸ List.mem_map_of_mem key hx

theorem keyed_mem_iff {α β : Type} (key : α → String) (g : α → Option β)
    (L : List α) (hnd : (L.map key).Nodup) (a : α) (ha : a ∈ L) :
    (∃ v, (key a, v) ∈ L.filterMap (fun x => (g x).map (fun w => (key x, w)))) ↔
      ∃ v, g a = some v := by
  constructor
  · rintro ⟨v, hv⟩
    rcases List.mem_filterMap.1 hv with ⟨x, hx, hgx⟩
    rcases Option.map_eq_some'.1 hgx with ⟨w, hgw, hkw⟩
    have hk : key x = key a := congrArg Prod.fst hkw
    have hxa : x = a := List.inj_on_of_nodup_map hnd hx ha hk
    exact ⟨w, hxa ▸ hgw⟩
  · rintro ⟨v, hv⟩
    refine ⟨v, List.mem_filterMap.2 ⟨a, ha, ?_⟩⟩
    rw [hv]
    rfl

theorem processUsualType_ne_nil (net : DNSNet) (url : Option String)
    (cd prov ty : String) (v : List ResourceRecord)
    (h : processUsualType net url cd prov ty = some v) : v ≠ [] := by
  rcases hq : queryDNS net cd ty url with _ | resp
  · simp only [processUsualType, hq] at h
    exact absurd h (by simp)
  · rcases ha : resp.Answer with _ | ans
    · simp only [processUsualType, hq, ha] at h
      exact absurd h (by simp)
    · simp only [processUsualType, hq, ha] at h
      by_cases hl : 0 < ans.length
      · rw [if_pos hl] at h
        have hv := Option.some.inj h
        have hne : ans ≠ [] := List.length_pos.1 hl
        subst hv
        split
        · simpa using hne
        · exact hne
      · rw [if_neg hl] at h
        exact absurd h (by simp)

theorem processProbe_ne_nil (net : DNSNet) (url : Option String)
    (cd : String) (probe : EmailProbe) (v : List ResourceRecord)
    (h : processProbe net url cd probe = some v) : v ≠ [] := by
  rcases hq : queryDNS net (probe.name ++ "." ++ cd) probe.type url with _ | resp
  · simp only [processProbe, hq] at h
    exact absurd h (by simp)
  · rcases ha : resp.Answer with _ | ans
    · simp only [processProbe, hq, ha] at h
      exact absurd h (by simp)
    · simp only [processProbe, hq, ha] at h
      by_cases hl : 0 < ans.length
      · rw [if_pos hl] at h
        have hv := Option.some.inj h
        subst hv
        exact List.length_pos.1 hl
      · rw [if_neg hl] at h
        exact absurd h (by simp)

theorem processUsualType_isSome_iff (net : DNSNet) (url : Option String)
    (cd prov ty : String) :
    (∃ v, processUsualType net url cd prov ty = some v) ↔
      ∃ resp ans, queryDNS net cd ty url = some resp ∧
        resp.Answer = some ans ∧ ans ≠ [] := by
  rcases hq : queryDNS net cd ty url with _ | resp
  · simp [processUsualType, hq]
  · rcases ha : resp.Answer with _ | ans
    · simp [processUsualType, hq, ha]
    · by_cases hl : 0 < ans.length
      · simp only [processUsualType, hq, ha, if_pos hl]
        constructor
        · intro
          exact ⟨resp, ans, rfl, ha, List.length_pos.1 hl⟩
        · intro
          exact ⟨_, rfl⟩
      · simp only [processUsualType, hq, ha, if_neg hl]
        constructor
        · rintro ⟨v, hv⟩
          exact absurd hv (by simp)
        · rintro ⟨resp2, ans2, hr2, ha2, hne2⟩
          have hre : resp2 = resp := (Option.some.inj hr2).symm
          subst hre
          rw [ha] at ha2
          have : ans2 = ans := (Option.some.inj ha2).symm
          subst this
          exact absurd (List.length_pos.2 hne2) hl

theorem processProbe_isSome_iff (net : DNSNet) (url : Option String)
    (cd : String) (probe : EmailProbe) :
    (∃ v, processProbe net url cd probe = some v) ↔
      ∃ resp ans, queryDNS net (probe.name ++ "." ++ cd) probe.type url = some resp ∧
        resp.Answer = some ans ∧ ans ≠ [] := by
  rcases hq : queryDNS net (probe.name ++ "." ++ cd) probe.type url with _ | resp
  · simp [processProbe, hq]
  · rcases ha : resp.Answer with _ | ans
    · simp [processProbe, hq, ha]
    · by_cases hl : 0 < ans.length
      · simp only [processProbe, hq, ha, if_pos hl]
        constructor
        · intro
          exact ⟨resp, ans, rfl, ha, List.length_pos.1 hl⟩
        · intro
          exact ⟨_, rfl⟩
      · simp only [processProbe, hq, ha, if_neg hl]
        constructor
        · rintro ⟨v, hv⟩
          exact absurd hv (by simp)
        · rintro ⟨resp2, ans2, hr2, ha2, hne2⟩
          have hre : resp2 = resp := (Option.some.inj hr2).symm
          subst hre
          rw [ha] at ha2
          have : ans2 = ans := (Option.some.inj ha2).symm
          subst this
          exact absurd (List.length_pos.2 hne2) hl

theorem spfEntries_mem (u : List (String × List ResourceRecord)) (k : String)
    (v : List ResourceRecord) (h : (k, v) ∈ spfEntries u) :
    k = "SPF (TXT)" ∧ v ≠ [] := by
  rcases ha : alookup "TXT" u with _ | txt
  · simp only [spfEntries, ha] at h
    cases h
  · simp only [spfEntries, ha] at h
    by_cases hl : 0 < (txt.filter spfPred).length
    · rw [if_pos hl] at h
      rcases List.mem_singleton.1 h with heq
      have h1 : k = "SPF (TXT)" := congrArg Prod.fst heq
      have h2 : v = txt.filter spfPred := congrArg Prod.snd heq
      exact ⟨h1, by rw [h2]; exact List.length_pos.1 hl⟩
    · rw [if_neg hl] at h
      cases h

theorem spfEntries_key_iff (u : List (String × List ResourceRecord)) :
    (∃ v, ("SPF (TXT)", v) ∈ spfEntries u) ↔
      ∃ txt, alookup "TXT" u = some txt ∧ txt.filter spfPred ≠ [] := by
  rcases ha : alookup "TXT" u with _ | txt
  · simp [spfEntries, ha]
  · simp only [spfEntries, ha]
    by_cases hl : 0 < (txt.filter spfPred).length
    · rw [if_pos hl]
      simp only [List.mem_singleton, Prod.mk.injEq, true_and]
      constructor
      · intro
        exact ⟨txt, rfl, List.length_pos.1 hl⟩
      · intro
        exact ⟨txt.filter spfPred, rfl⟩
    · rw [if_neg hl]
      have hnil : txt.filter spfPred = [] := by
        rcases h0 : txt.filter spfPred with _ | ⟨x, xs⟩
        · rfl
        · exact absurd (h0 ▸ Nat.succ_pos xs.length) hl
      constructor
      · rintro ⟨v, hv⟩
        cases hv
      · rintro ⟨txt2, htxt2, hne2⟩
        have : txt2 = txt := (Option.some.inj htxt2).symm
        subst this
        exact absurd hnil hne2

theorem usualTypes_map_nodup : (usualTypes.map (fun s => s)).Nodup := by
  decide

theorem probeLabels_nodup : (emailSecurityProbes.map EmailProbe.label).Nodup := by
  decide

theorem probeLabels_ne_spf :
    ∀ probe ∈ emailSecurityProbes, probe.label ≠ "SPF (TXT)" := by
  decide

theorem spf_notin_probeLabels :
    "SPF (TXT)" ∉ emailSecurityProbes.map EmailProbe.label := by
  decide

/-- Claim C6: a label is a key of the standard (resp. email-security) mapping
iff its query succeeded with a non-empty `Answer` (for the synthetic
`SPF (TXT)` label: iff the TXT filter kept at least one record), and no
key is ever bound to an empty record list. -/
theorem lookup_result_keys (net : DNSNet) (d p : String) (hd : jsTrim d ≠ "") :
    (performLookup net d p).1 = .success (doLookup net (cleanDomain d) p).1 ∧
      (∀ k v, (k, v) ∈ (doLookup net (cleanDomain d) p).1.usual → v ≠ []) ∧
      (∀ k v, (k, v) ∈ (doLookup net (cleanDomain d) p).1.emailSecurity → v ≠ []) ∧
      (∀ k, (∃ v, (k, v) ∈ (doLookup net (cleanDomain d) p).1.usual) ↔
        k ∈ usualTypes ∧ ∃ resp ans,
          queryDNS net (cleanDomain d) k (PROVIDERS p) = some resp ∧
            resp.Answer = some ans ∧ ans ≠ []) ∧
      (∀ probe ∈ emailSecurityProbes,
        ((∃ v, (probe.label, v) ∈ (doLookup net (cleanDomain d) p).1.emailSecurity) ↔
          ∃ resp ans,
            queryDNS net (probe.name ++ "." ++ cleanDomain d) probe.type (PROVIDERS p) =
              some resp ∧ resp.Answer = some ans ∧ ans ≠ [])) ∧
      ((∃ v, ("SPF (TXT)", v) ∈ (doLookup net (cleanDomain d) p).1.emailSecurity) ↔
        ∃ txt, alookup "TXT" (doLookup net (cleanDomain d) p).1.usual = some txt ∧
          txt.filter spfPred ≠ []) := by
  have hperf : (performLookup net d p).1 = .success (doLookup net (cleanDomain d) p).1 := by
    rw [performLookup, if_neg hd]
  refine ⟨hperf, ?_, ?_, ?_, ?_, ?_⟩ <;>
    simp only [doLookup, usualPass_fst, emailPass_fst]
  · intro k v hv
    rcases List.mem_filterMap.1 hv with ⟨ty, _, hg⟩
    rcases Option.map_eq_some'.1 hg with ⟨w, hw, heq⟩
    have h1 : ty = k := congrArg Prod.fst heq
    have h2 : w = v := congrArg Prod.snd heq
    subst h1
    subst h2
    exact processUsualType_ne_nil net (PROVIDERS p) (cleanDomain d) p ty w hw
  · intro k v hv
    rcases List.mem_append.1 hv with hs | he
    · exact (spfEntries_mem _ k v hs).2
    · rcases List.mem_filterMap.1 he with ⟨probe, _, hg⟩
      rcases Option.map_eq_some'.1 hg with ⟨w, hw, heq⟩
      have h2 : w = v := congrArg Prod.snd heq
      subst h2
      exact processProbe_ne_nil net (PROVIDERS p) (cleanDomain d) probe w hw
  · intro k
    constructor
    · rintro ⟨v, hv⟩
      have hk : k ∈ usualTypes.map (fun s => s) :=
        keyed_mem_key (fun s => s) _ usualTypes k v hv
      have hk2 : k ∈ usualTypes := by simpa using hk
      refine ⟨hk2, ?_⟩
      have hex := (keyed_mem_iff (fun s => s)
        (processUsualType net (PROVIDERS p) (cleanDomain d) p) usualTypes
        usualTypes_map_nodup k hk2).1 ⟨v, hv⟩
      exact (processUsualType_isSome_iff net (PROVIDERS p) (cleanDomain d) p k).1 hex
    · rintro ⟨hk, hrest⟩
      exact (keyed_mem_iff (fun s => s)
        (processUsualType net (PROVIDERS p) (cleanDomain d) p) usualTypes
        usualTypes_map_nodup k hk).2
        ((processUsualType_isSome_iff net (PROVIDERS p) (cleanDomain d) p k).2 hrest)
  · intro probe hpr
    constructor
    · rintro ⟨v, hv⟩
      rcases List.mem_append.1 hv with hs | he
      · exact absurd (spfEntries_mem _ _ _ hs).1 (probeLabels_ne_spf probe hpr)
      · have hex := (keyed_mem_iff EmailProbe.label
          (processProbe net (PROVIDERS p) (cleanDomain d)) emailSecurityProbes
          probeLabels_nodup probe hpr).1 ⟨v, he⟩
        exact (processProbe_isSome_iff net (PROVIDERS p) (cleanDomain d) probe).1 hex
    · intro h
      rcases (keyed_mem_iff EmailProbe.label
        (processProbe net (PROVIDERS p) (cleanDomain d)) emailSecurityProbes
        probeLabels_nodup probe hpr).2
        ((processProbe_isSome_iff net (PROVIDERS p) (cleanDomain d) probe).2 h) with ⟨v, hv⟩
      exact ⟨v, List.mem_append.2 (Or.inr hv)⟩
  · constructor
    · rintro ⟨v, hv⟩
      rcases List.mem_append.1 hv with hs | he
      · exact (spfEntries_key_iff _).1 ⟨v, hs⟩
      · have hk := keyed_mem_key EmailProbe.label
          (processProbe net (PROVIDERS p) (cleanDomain d)) emailSecurityProbes _ v he
        exact absurd hk spf_notin_probeLabels
    · intro h
      rcases (spfEntries_key_iff _).2 h with ⟨v, hv⟩
      exact ⟨v, List.mem_append.2 (Or.inl hv)⟩

/-- Witness for `C6`, at a transport that answers only the A query for
`example.com` with one record and fails everything else. -/
theorem lookup_result_keys_witness :
    ((performLookup
        (fun _ n t => if n = "example.com" ∧ t = "A"
          then some ⟨some [⟨"example.com", 1, 60, "192.0.2.1"⟩]⟩ else none)
        "example.com" "google").1 =
      .success (doLookup
        (fun _ n t => if n = "example.com" ∧ t = "A"
          then some ⟨some [⟨"example.com", 1, 60, "192.0.2.1"⟩]⟩ else none)
        (cleanDomain "example.com") "google").1) ∧
      ((doLookup
        (fun _ n t => if n = "example.com" ∧ t = "A"
          then some ⟨some [⟨"example.com", 1, 60, "192.0.2.1"⟩]⟩ else none)
        (cleanDomain "example.com") "google").1.usual =
        [("A", [⟨"example.com", 1, 60, "192.0.2.1"⟩])]) := by
  constructor
  · exact (lookup_result_keys
      (fun _ n t => if n = "example.com" ∧ t = "A"
        then some ⟨some [⟨"example.com", 1, 60, "192.0.2.1"⟩]⟩ else none)
      "example.com" "google" (by decide)).1
  · decide

theorem alookup_append {α : Type} (k : String) (a b : List (String × α)) :
    alookup k (a ++ b) =
      match alookup k a with
      | some v => some v
      | none => alookup k b := by
  induction a with
  | nil => rfl
  | cons kv rest ih =>
    rcases kv with ⟨k2, v⟩
    by_cases hk : k2 = k
    · simp [alookup, hk]
    · simp only [List.cons_append, alookup, if_neg hk]
      exact ih

theorem alookup_eq_none {α : Type} (k : String) (l : List (String × α))
    (h : ∀ kv ∈ l, kv.1 ≠ k) : alookup k l = none := by
  induction l with
  | nil => rfl
  | cons kv rest ih =>
    rcases kv with ⟨k2, v⟩
    rw [alookup, if_neg (h (k2, v) (List.mem_cons_self _ _))]
    exact ih (fun kv2 hkv2 => h kv2 (List.mem_cons_of_mem _ hkv2))

theorem alookup_spfEntries (u : List (String × List ResourceRecord)) :
    alookup "SPF (TXT)" (spfEntries u) =
      match alookup "TXT" u with
      | none => none
      | some txt =>
        if txt.filter spfPred = [] then none else some (txt.filter spfPred) := by
  rcases ha : alookup "TXT" u with _ | txt
  · simp [spfEntries, ha, alookup]
  · simp only [spfEntries, ha]
    by_cases hl : 0 < (txt.filter spfPred).length
    · rw [if_pos hl]
      have hne : ¬ txt.filter spfPred = [] := List.length_pos.1 hl
      simp [alookup, hne]
    · rw [if_neg hl]
      have hnil : txt.filter spfPred = [] := by
        rcases h0 : txt.filter spfPred with _ | ⟨x, xs⟩
        · rfl
        · exact absurd (h0 ▸ Nat.succ_pos xs.length) hl
      simp [alookup, hnil]

/-- Claim C7: the synthetic `SPF (TXT)` entry is exactly the filter of the same
lookup's standard TXT result set by a case-insensitive `v=spf1` substring
test — present iff at least one TXT record matches, containing exactly the
matching records. -/
theorem lookup_spf_entry (net : DNSNet) (d p : String) (hd : jsTrim d ≠ "") :
    (performLookup net d p).1 = .success (doLookup net (cleanDomain d) p).1 ∧
      alookup "SPF (TXT)" (doLookup net (cleanDomain d) p).1.emailSecurity =
        (match alookup "TXT" (doLookup net (cleanDomain d) p).1.usual with
         | none => none
         | some txt =>
           if txt.filter spfPred = [] then none
           else some (txt.filter spfPred)) := by
  refine ⟨by rw [performLookup, if_neg hd], ?_⟩
  simp only [doLookup]
  rw [alookup_append]
  have hnone :
      alookup "SPF (TXT)"
        (emailPass net (PROVIDERS p) (cleanDomain d) emailSecurityProbes).1 = none := by
    apply alookup_eq_none
    intro kv hkv
    rcases kv with ⟨k2, v⟩
    rw [emailPass_fst] at hkv
    have hk := keyed_mem_key EmailProbe.label
      (processProbe net (PROVIDERS p) (cleanDomain d)) emailSecurityProbes k2 v hkv
    intro heq
    exact spf_notin_probeLabels (heq ▸ hk)
  rw [hnone, alookup_spfEntries]
  rcases alookup "TXT" (usualPass net (PROVIDERS p) (cleanDomain d) p usualTypes).1 with _ | txt
  · rfl
  · dsimp only
    by_cases hl : txt.filter spfPred = []
    · rw [if_pos hl]
    · rw [if_neg hl]

/-- Witness for `C7`: a TXT answer
`["v=spf1 include:_spf.example.com ~all", "other-txt"]` yields an
`SPF (TXT)` entry containing exactly the first record. -/
theorem lookup_spf_entry_witness :
    ((performLookup
        (fun _ n t => if n = "example.com" ∧ t = "TXT"
          then some ⟨some [⟨"example.com", 16, 300, "v=spf1 include:_spf.example.com ~all"⟩,
                           ⟨"example.com", 16, 300, "other-txt"⟩]⟩ else none)
        "example.com" "google").1 =
      .success (doLookup
        (fun _ n t => if n = "example.com" ∧ t = "TXT"
          then some ⟨some [⟨"example.com", 16, 300, "v=spf1 include:_spf.example.com ~all"⟩,
                           ⟨"example.com", 16, 300, "other-txt"⟩]⟩ else none)
        (cleanDomain "example.com") "google").1 ∧
      alookup "SPF (TXT)" (doLookup
        (fun _ n t => if n = "example.com" ∧ t = "TXT"
          then some ⟨some [⟨"example.com", 16, 300, "v=spf1 include:_spf.example.com ~all"⟩,
                           ⟨"example.com", 16, 300, "other-txt"⟩]⟩ else none)
        (cleanDomain "example.com") "google").1.emailSecurity =
        (match alookup "TXT" (doLookup
            (fun _ n t => if n = "example.com" ∧ t = "TXT"
              then some ⟨some [⟨"example.com", 16, 300, "v=spf1 include:_spf.example.com ~all"⟩,
                               ⟨"example.com", 16, 300, "other-txt"⟩]⟩ else none)
            (cleanDomain "example.com") "google").1.usual with
         | none => none
         | some txt =>
           if txt.filter spfPred = [] then none
           else some (txt.filter spfPred))) ∧
      alookup "SPF (TXT)" (doLookup
        (fun _ n t => if n = "example.com" ∧ t = "TXT"
          then some ⟨some [⟨"example.com", 16, 300, "v=spf1 include:_spf.example.com ~all"⟩,
                           ⟨"example.com", 16, 300, "other-txt"⟩]⟩ else none)
        (cleanDomain "example.com") "google").1.emailSecurity =
        some [⟨"example.com", 16, 300, "v=spf1 include:_spf.example.com ~all"⟩] :=
  ⟨lookup_spf_entry
      (fun _ n t => if n = "example.com" ∧ t = "TXT"
        then some ⟨some [⟨"example.com", 16, 300, "v=spf1 include:_spf.example.com ~all"⟩,
                         ⟨"example.com", 16, 300, "other-txt"⟩]⟩ else none)
      "example.com" "google" (by decide),
   by decide⟩

/-! ## Normalization lemmas (C9) -/

theorem charToNat_ofNat (n : Nat) (h : n < 55296) : (Char.ofNat n).toNat = n := by
  rw [Char.ofNat, dif_pos (Or.inl h)]
  rfl

theorem isJsWs_false_of_range (c : Char) (h1 : 33 ≤ c.toNat) (h2 : c.toNat ≤ 122) :
    isJsWs c = false := by
  rw [Bool.eq_false_iff]
  intro hw
  simp only [isJsWs, Bool.or_eq_true, Bool.and_eq_true, decide_eq_true_eq] at hw
  omega

theorem jsUpperChar_toNat (c : Char) (h : 97 ≤ c.toNat ∧ c.toNat ≤ 122) :
    (jsUpperChar c).toNat = c.toNat - 32 := by
  rw [jsUpperChar, if_pos]
  · exact charToNat_ofNat _ (by omega)
  · simp only [Bool.and_eq_true, decide_eq_true_eq]
    exact h

theorem jsUpperChar_id (c : Char) (h : ¬(97 ≤ c.toNat ∧ c.toNat ≤ 122)) :
    jsUpperChar c = c := by
  rw [jsUpperChar, if_neg]
  simp only [Bool.and_eq_true, decide_eq_true_eq]
  exact h

theorem isJsWs_jsUpperChar (c : Char) : isJsWs (jsUpperChar c) = isJsWs c := by
  by_cases h : 97 ≤ c.toNat ∧ c.toNat ≤ 122
  · have hu := jsUpperChar_toNat c h
    rw [isJsWs_false_of_range c (by omega) (by omega),
      isJsWs_false_of_range (jsUpperChar c) (by omega) (by omega)]
  · rw [jsUpperChar_id c h]

theorem jsLowerChar_jsUpperChar (c : Char) :
    jsLowerChar (jsUpperChar c) = jsLowerChar c := by
  by_cases h : 97 ≤ c.toNat ∧ c.toNat ≤ 122
  · have hu := jsUpperChar_toNat c h
    have hlo : jsLowerChar (jsUpperChar c) = Char.ofNat ((jsUpperChar c).toNat + 32) := by
      rw [jsLowerChar, if_pos]
      simp only [Bool.and_eq_true, decide_eq_true_eq]
      omega
    have hco : jsLowerChar c = c := by
      rw [jsLowerChar, if_neg]
      simp only [Bool.and_eq_true, decide_eq_true_eq]
      omega
    rw [hlo, hco, hu]
    have harg : c.toNat - 32 + 32 = c.toNat := by omega
    rw [harg, Char.ofNat_toNat]
  · rw [jsUpperChar_id c h]

theorem jsLowerChar_ne_slash (c : Char) (h : c ≠ '/') : jsLowerChar c ≠ '/' := by
  by_cases hr : 65 ≤ c.toNat ∧ c.toNat ≤ 90
  · have : (jsLowerChar c).toNat = c.toNat + 32 := by
      rw [jsLowerChar, if_pos]
      · exact charToNat_ofNat _ (by omega)
      · simp only [Bool.and_eq_true, decide_eq_true_eq]
        exact hr
    intro heq
    rw [heq] at this
    have : (47 : Nat) = c.toNat + 32 := this
    omega
  · rw [jsLowerChar, if_neg]
    · exact h
    · simp only [Bool.and_eq_true, decide_eq_true_eq]
      exact hr

theorem trimStartList_map_upper (l : List Char) :
    trimStartList (l.map jsUpperChar) = (trimStartList l).map jsUpperChar := by
  induction l with
  | nil => rfl
  | cons c cs ih =>
    simp only [List.map_cons, trimStartList, List.dropWhile_cons, isJsWs_jsUpperChar] at *
    rcases hw : isJsWs c with _ | _
    · simp [hw]
    · simpa [hw] using ih

theorem map_lower_upper (l : List Char) :
    (l.map jsUpperChar).map jsLowerChar = l.map jsLowerChar := by
  rw [List.map_map]
  exact List.map_congr_left (fun c _ => jsLowerChar_jsUpperChar c)

theorem startsWithChars_iff_append (pat x : List Char) :
    startsWithChars pat x = true ↔ ∃ rest, x = pat ++ rest := by
  induction pat generalizing x with
  | nil =>
    constructor
    · intro
      exact ⟨x, rfl⟩
    · intro
      rfl
  | cons p ps ih =>
    cases x with
    | nil =>
      constructor
      · intro h
        cases h
      · rintro ⟨rest, hrest⟩
        cases hrest
    | cons c cs =>
      rw [startsWithChars, Bool.and_eq_true]
      constructor
      · rintro ⟨hpc, hrest⟩
        have hpc2 : p = c := by simpa using hpc
        rcases (ih cs).1 hrest with ⟨rest, hr⟩
        exact ⟨rest, by rw [hpc2, hr]; rfl⟩
      · rintro ⟨rest, hr⟩
        rcases List.cons.inj hr with ⟨hpc, hcs⟩
        refine ⟨by simp [hpc], (ih cs).2 ⟨rest, hcs⟩⟩

theorem startsWithChars_append_concat (pat x : List Char) (y : List Char)
    (h : startsWithChars pat x = true) : startsWithChars pat (x ++ y) = true := by
  rcases (startsWithChars_iff_append pat x).1 h with ⟨rest, rfl⟩
  exact (startsWithChars_iff_append pat _).2 ⟨rest ++ y, by rw [List.append_assoc]⟩

theorem not_startsWithChars_concat_slash (pat Z : List Char)
    (hp : pat.dropLast.getLast? = some '/')
    (hz : ¬startsWithChars pat Z = true) (hl : Z.getLast? ≠ some '/') :
    ¬startsWithChars pat (Z ++ ['/']) = true := by
  intro hsw
  rcases (startsWithChars_iff_append pat _).1 hsw with ⟨rest, hr⟩
  cases rest with
  | nil =>
    rw [List.append_nil] at hr
    have hdl : Z = pat.dropLast := by
      have := congrArg List.dropLast hr
      rwa [List.dropLast_concat] at this
    exact hl (hdl ▸ hp)
  | cons r rs =>
    have hdl := congrArg List.dropLast hr
    rw [List.dropLast_concat,
      List.dropLast_append_of_ne_nil pat (List.cons_ne_nil r rs)] at hdl
    exact hz ((startsWithChars_iff_append pat Z).2 ⟨(r :: rs).dropLast, hdl⟩)

theorem getLast?_drop_of_ne_nil (l : List Char) (n : Nat) (h : l.drop n ≠ []) :
    (l.drop n).getLast? = l.getLast? := by
  conv_rhs => rw [← List.take_append_drop n l]
  rw [List.getLast?_append]
  rcases hg : (l.drop n).getLast? with _ | c
  · exact absurd (List.getLast?_eq_none_iff.1 hg) h
  · rfl

theorem stripTrailingSlash_of_getLast (Z : List Char) (h : Z.getLast? ≠ some '/') :
    stripTrailingSlash Z = Z := by
  rw [stripTrailingSlash, if_neg h]

theorem stripTrailingSlash_concat (Z : List Char) :
    stripTrailingSlash (Z ++ ['/']) = Z := by
  rw [stripTrailingSlash, if_pos (List.getLast?_concat Z), List.dropLast_concat]

theorem getLast?_append_right (l l' : List Char) (h : l' ≠ []) :
    (l ++ l').getLast? = l'.getLast? := by
  rw [List.getLast?_append]
  rcases hg : l'.getLast? with _ | c
  · exact absurd (List.getLast?_eq_none_iff.1 hg) h
  · rfl

theorem strip_concat_of_sw (pat Z : List Char) (n : Nat) (hn : pat.length = n)
    (hsw : startsWithChars pat Z = true) (hl : Z.getLast? ≠ some '/') :
    stripTrailingSlash ((Z ++ ['/']).drop n) = stripTrailingSlash (Z.drop n) := by
  rcases (startsWithChars_iff_append pat Z).1 hsw with ⟨rest, rfl⟩
  have h1 : ((pat ++ rest) ++ ['/']).drop n = rest ++ ['/'] := by
    rw [List.append_assoc]
    exact List.drop_left' hn
  have h2 : (pat ++ rest).drop n = rest := List.drop_left' hn
  rw [h1, h2, stripTrailingSlash_concat]
  cases rest with
  | nil => simp [stripTrailingSlash]
  | cons r rs =>
    rw [stripTrailingSlash_of_getLast]
    rw [← getLast?_append_right pat (r :: rs) (List.cons_ne_nil r rs)]
    exact hl

theorem stripScheme_slash_concat (Z : List Char) (hl : Z.getLast? ≠ some '/') :
    stripTrailingSlash (stripScheme (Z ++ ['/'])) =
      stripTrailingSlash (stripScheme Z) := by
  by_cases h8 : startsWithChars "https://".data Z = true
  · rw [stripScheme, if_pos (startsWithChars_append_concat _ Z ['/'] h8),
      stripScheme, if_pos h8]
    exact strip_concat_of_sw _ Z 8 (by decide) h8 hl
  · by_cases h7 : startsWithChars "http://".data Z = true
    · have h7' := startsWithChars_append_concat _ Z ['/'] h7
      have h8' := not_startsWithChars_concat_slash "https://".data Z (by decide) h8 hl
      rw [stripScheme, if_neg h8', if_pos h7', stripScheme, if_neg h8, if_pos h7]
      exact strip_concat_of_sw _ Z 7 (by decide) h7 hl
    · have h8' := not_startsWithChars_concat_slash "https://".data Z (by decide) h8 hl
      have h7' := not_startsWithChars_concat_slash "http://".data Z (by decide) h7 hl
      rw [stripScheme, if_neg h8', if_neg h7', stripScheme, if_neg h8, if_neg h7,
        stripTrailingSlash_concat, stripTrailingSlash_of_getLast Z hl]

theorem trimEndList_of_getLast (X : List Char) (c : Char)
    (h : X.getLast? = some c) (hw : isJsWs c = false) : trimEndList X = X := by
  have hX : X.dropLast ++ [c] = X := List.dropLast_append_getLast? c h
  conv_lhs => rw [trimEndList, ← hX]
  rw [List.reverse_append]
  show ((c :: X.dropLast.reverse).dropWhile isJsWs).reverse = X
  rw [List.dropWhile_cons, hw]
  simp only [Bool.false_eq_true, if_false, List.reverse_cons, List.reverse_reverse]
  exact hX

theorem trimStartList_getLast (l : List Char) (c : Char)
    (hc : l.getLast? = some c) (hw : isJsWs c = false) :
    (trimStartList l).getLast? = some c := by
  have hX : l.dropLast ++ [c] = l := List.dropLast_append_getLast? c hc
  rw [trimStartList, ← hX, List.dropWhile_append]
  split
  · show (List.dropWhile isJsWs [c]).getLast? = some c
    rw [List.dropWhile_cons, hw]
    simp
  · exact List.getLast?_concat _

theorem jsTrimList_eq_trimStart (l : List Char) (c : Char)
    (hc : l.getLast? = some c) (hw : isJsWs c = false) :
    jsTrimList l = trimStartList l := by
  rw [jsTrimList]
  exact trimEndList_of_getLast _ c (trimStartList_getLast l c hc hw) hw

theorem trimStartList_ne_nil (l : List Char) (h0 : jsTrimList l ≠ []) :
    trimStartList l ≠ [] := by
  intro h
  exact h0 (by rw [jsTrimList, h]; rfl)

theorem isJsWs_slash : isJsWs '/' = false := by decide

theorem jsTrimList_wrapped (l : List Char) (h0 : jsTrimList l ≠ []) :
    jsTrimList (' ' :: ' ' :: (l.map jsUpperChar ++ ['/', ' '])) =
      (trimStartList l).map jsUpperChar ++ ['/'] := by
  have hV : trimStartList (l.map jsUpperChar) = (trimStartList l).map jsUpperChar :=
    trimStartList_map_upper l
  have hVne : trimStartList (l.map jsUpperChar) ≠ [] := by
    rw [hV]
    simp only [ne_eq, List.map_eq_nil_iff]
    exact trimStartList_ne_nil l h0
  have hstart : trimStartList (' ' :: ' ' :: (l.map jsUpperChar ++ ['/', ' '])) =
      (trimStartList l).map jsUpperChar ++ ['/', ' '] := by
    rw [trimStartList, List.dropWhile_cons]
    simp only [isJsWs_space, if_true]
    rw [List.dropWhile_cons]
    simp only [isJsWs_space, if_true]
    rw [List.dropWhile_append, if_neg, ← trimStartList, hV]
    intro hemp
    exact hVne (List.isEmpty_iff.1 hemp)
  rw [jsTrimList, hstart, trimEndList, List.reverse_append]
  show ((' ' :: '/' :: ((trimStartList l).map jsUpperChar).reverse).dropWhile
      isJsWs).reverse = (trimStartList l).map jsUpperChar ++ ['/']
  rw [List.dropWhile_cons]
  simp only [isJsWs_space, if_true]
  rw [List.dropWhile_cons]
  simp only [isJsWs_slash, Bool.false_eq_true, if_false, List.reverse_cons,
    List.reverse_reverse]

theorem jsLowerChar_slash_eq : jsLowerChar '/' = '/' := by decide

theorem cleanList_concat (l : List Char) (c : Char)
    (h0 : jsTrimList l ≠ []) (hc : l.getLast? = some c)
    (hw : isJsWs c = false) (hs : c ≠ '/') :
    cleanList (' ' :: ' ' :: (l.map jsUpperChar ++ ['/', ' '])) = cleanList l := by
  rw [cleanList, jsTrimList_wrapped l h0, jsToLowerList, List.map_append]
  have hlow : ((trimStartList l).map jsUpperChar).map jsLowerChar =
      (trimStartList l).map jsLowerChar := map_lower_upper _
  have hsl : List.map jsLowerChar ['/'] = ['/'] := by
    rw [List.map_cons, jsLowerChar_slash_eq]
    rfl
  rw [hlow, hsl]
  conv_rhs => rw [cleanList, jsTrimList_eq_trimStart l c hc hw]
  have hZ : (jsToLowerList (trimStartList l)).getLast? ≠ some '/' := by
    rw [jsToLowerList, List.getLast?_map, trimStartList_getLast l c hc hw]
    intro heq
    exact jsLowerChar_ne_slash c hs (Option.some.inj (by simpa using heq))
  have := stripScheme_slash_concat (jsToLowerList (trimStartList l)) hZ
  rw [jsToLowerList] at this
  exact this

/-- Claim C9 (amended): the normalization chain (trim, lowercase, strip a
leading `http://`/`https://`, strip one trailing `/`) makes
`performLookup("  " + d.toUpperCase() + "/ ", p)` equal to
`performLookup(d, p)` for every ASCII domain `d` that is non-empty after
trimming and ends in neither whitespace nor `/`.  The ASCII restriction
matches the exactness domain of the case-map embedding: on ASCII strings
`toUpperCase`/`toLowerCase` are precisely the per-character letter maps,
while outside ASCII the real methods apply Unicode mappings (`'ß'` to
`"SS"`, `'ı'` to `'I'`) under which the round trip — and hence the
invariance — can fail in the program.  The normalized string is the echoed
`domain` field and the subject of every issued query. -/
theorem performLookup_normalization (net : DNSNet) (p d : String)
    (h0 : jsTrim d ≠ "")
    (h1 : ∀ c, d.data.getLast? = some c → isJsWs c = false ∧ c ≠ '/')
    (_hascii : ∀ c ∈ d.data, c.toNat < 128) :
    performLookup net ("  " ++ jsToUpper d ++ "/ ") p = performLookup net d p ∧
      (doLookup net (cleanDomain d) p).1.domain = cleanDomain d ∧
      (performLookup net d p).2 =
        usualTypes.map (fun ty => (cleanDomain d, ty)) ++
          emailSecurityProbes.map
            (fun probe => (probe.name ++ "." ++ cleanDomain d, probe.type)) := by
  have hdne : d.data ≠ [] := by
    intro hnil
    apply h0
    show (⟨jsTrimList d.data⟩ : String) = ""
    rw [hnil]
    rfl
  obtain ⟨c, hc⟩ : ∃ c, d.data.getLast? = some c := by
    rcases hg : d.data.getLast? with _ | c
    · exact absurd (List.getLast?_eq_none_iff.1 hg) hdne
    · exact ⟨c, rfl⟩
  obtain ⟨hw, hs⟩ := h1 c hc
  have h0l : jsTrimList d.data ≠ [] := by
    intro h
    apply h0
    show (⟨jsTrimList d.data⟩ : String) = ""
    rw [h]
  have hdata : ("  " ++ jsToUpper d ++ "/ ").data =
      ' ' :: ' ' :: (d.data.map jsUpperChar ++ ['/', ' ']) := by
    rw [String.data_append, String.data_append, List.append_assoc]
    rfl
  have hclean : cleanDomain ("  " ++ jsToUpper d ++ "/ ") = cleanDomain d := by
    show (⟨cleanList ("  " ++ jsToUpper d ++ "/ ").data⟩ : String) = ⟨cleanList d.data⟩
    rw [hdata, cleanList_concat d.data c h0l hc hw hs]
  have htrimL : jsTrim ("  " ++ jsToUpper d ++ "/ ") ≠ "" := by
    intro h
    have hdat : jsTrimList ("  " ++ jsToUpper d ++ "/ ").data = [] := by
      have := congrArg String.data h
      simpa [jsTrim] using this
    rw [hdata, jsTrimList_wrapped d.data h0l] at hdat
    simp at hdat
  refine ⟨?_, rfl, ?_⟩
  · rw [performLookup, performLookup, if_neg htrimL, if_neg h0, hclean]
  · rw [performLookup, if_neg h0]
    show (doLookup net (cleanDomain d) p).2 = _
    simp only [doLookup]
    rw [usualPass_snd, emailPass_snd]

/-- Witness for `C9`, at `d = "Example.com"` and a transport that fails
every query. -/
theorem performLookup_normalization_witness :
    performLookup (fun _ _ _ => none) ("  " ++ jsToUpper "Example.com" ++ "/ ") "google" =
        performLookup (fun _ _ _ => none) "Example.com" "google" ∧
      (doLookup (fun _ _ _ => none) (cleanDomain "Example.com") "google").1.domain =
        cleanDomain "Example.com" ∧
      (performLookup (fun _ _ _ => none) "Example.com" "google").2 =
        usualTypes.map (fun ty => (cleanDomain "Example.com", ty)) ++
          emailSecurityProbes.map
            (fun probe => (probe.name ++ "." ++ cleanDomain "Example.com", probe.type)) :=
  performLookup_normalization (fun _ _ _ => none) "google" "Example.com"
    (by decide) (by decide) (by decide)

/-- Counterexample for `C9` as stated: for `d = "a/"` (which ends in `/`)
the wrapped call normalizes to `a/` while the direct call normalizes to
`a`, so the two lookups query different names and produce different result
sets. -/
theorem performLookup_normalization_counterexample :
    performLookup
        (fun _ n _ => if n = "a" then some ⟨some [⟨"a", 1, 60, "192.0.2.1"⟩]⟩ else none)
        ("  " ++ jsToUpper "a/" ++ "/ ") "google" ≠
      performLookup
        (fun _ n _ => if n = "a" then some ⟨some [⟨"a", 1, 60, "192.0.2.1"⟩]⟩ else none)
        "a/" "google" := by
  decide

/-- Claim C5: when every single query fails (the transport throws on each), all
failures are swallowed by the per-query handlers, the loops run to the end,
and the lookup still completes with a result whose standard and
email-security mappings are both empty. -/
theorem performLookup_all_failures (net : DNSNet) (d p : String)
    (hfail : ∀ u n t, net u n t = none) (hd : jsTrim d ≠ "") :
    (performLookup net d p).1 =
      .success ⟨cleanDomain d, providerLabel p, [], []⟩ := by
  have hq : ∀ n t (u : Option String), queryDNS net n t u = none := by
    intro n t u
    cases u with
    | none => rfl
    | some v => exact hfail v n t
  have hpu : ∀ ty, processUsualType net (PROVIDERS p) (cleanDomain d) p ty = none := by
    intro ty
    rw [processUsualType, hq]
  have hpe : ∀ probe, processProbe net (PROVIDERS p) (cleanDomain d) probe = none := by
    intro probe
    rw [processProbe, hq]
  have hu1 : (usualPass net (PROVIDERS p) (cleanDomain d) p usualTypes).1 = [] := by
    rw [usualPass_fst]
    simp [hpu]
  have he1 : (emailPass net (PROVIDERS p) (cleanDomain d) emailSecurityProbes).1 = [] := by
    rw [emailPass_fst]
    simp [hpe]
  rw [performLookup, if_neg hd]
  simp only [doLookup, hu1, he1]
  rfl

/-- Witness for `C5`: a transport that fails every query still yields a
successful, empty lookup result for `example.com`. -/
theorem performLookup_all_failures_witness :
    (performLookup (fun _ _ _ => none) "example.com" "google").1 =
      .success ⟨cleanDomain "example.com", providerLabel "google", [], []⟩ :=
  performLookup_all_failures (fun _ _ _ => none) "example.com" "google"
    (fun _ _ _ => rfl) (by decide)

/-- Claim C10: an unknown provider id makes `PROVIDERS[provider]` `undefined`;
`new URL(undefined)` then throws inside every per-query `try`, so no error
reaches the caller and the lookup completes with both mappings empty (and
the fallback provider label `1.1.1.1`). -/
theorem performLookup_unknown_provider (net : DNSNet) (d p : String)
    (hg : p ≠ "google") (hc : p ≠ "cloudflare") (hd : jsTrim d ≠ "") :
    (performLookup net d p).1 =
      .success ⟨cleanDomain d, "1.1.1.1", [], []⟩ := by
  have hurl : PROVIDERS p = none := by
    rw [PROVIDERS, if_neg hg, if_neg hc]
  have hq : ∀ n t, queryDNS net n t (PROVIDERS p) = none := by
    intro n t
    rw [hurl]
    rfl
  have hpu : ∀ ty, processUsualType net (PROVIDERS p) (cleanDomain d) p ty = none := by
    intro ty
    rw [processUsualType, hq]
  have hpe : ∀ probe, processProbe net (PROVIDERS p) (cleanDomain d) probe = none := by
    intro probe
    rw [processProbe, hq]
  have hu1 : (usualPass net (PROVIDERS p) (cleanDomain d) p usualTypes).1 = [] := by
    rw [usualPass_fst]
    simp [hpu]
  have he1 : (emailPass net (PROVIDERS p) (cleanDomain d) emailSecurityProbes).1 = [] := by
    rw [emailPass_fst]
    simp [hpe]
  have hlabel : providerLabel p = "1.1.1.1" := by
    rw [providerLabel, if_neg hg]
  rw [performLookup, if_neg hd]
  simp only [doLookup, hu1, he1, hlabel]
  rfl

/-- Witness for `C10`: provider id `quad9` with a transport that would
answer every query — the undefined endpoint still forces an empty result. -/
theorem performLookup_unknown_provider_witness :
    (performLookup
      (fun _ _ _ => some ⟨some [⟨"example.com", 1, 60, "192.0.2.1"⟩]⟩)
      "example.com" "quad9").1 =
      .success ⟨cleanDomain "example.com", "1.1.1.1", [], []⟩ :=
  performLookup_unknown_provider
    (fun _ _ _ => some ⟨some [⟨"example.com", 1, 60, "192.0.2.1"⟩]⟩)
    "example.com" "quad9" (by decide) (by decide) (by decide)
